import Mathlib

/-!
# Verification of the beancount <-> DATEV conversion core (beandatev.py)

This file gives a shallow embedding of the conversion core of the repository:
the two direction-specific converters `beancount2datev` and `datev2beancount`,
the wildcard expansion `expand_asterisk_wildcard` and the dictionary loader
`load_account_dictionary`.

Modelling conventions, fixed once here:

* Python strings are modelled as `String` (account names, currencies,
  narrations) or as `List Char` (account-number patterns, where the source
  manipulates them character by character).
* beancount `Decimal` amounts are modelled as `ℚ`.  The source converts the
  decimal to a float for the sign test and for the stored amount and converts
  it back through `str`/`Decimal`; on the values the program is designed for
  this round trip is exact, so the embedding keeps the exact rational.
* `datetime.date` is modelled as a year/month/day record with the
  lexicographic comparison that Python dates use.
* Python exceptions are modelled with `Except ConvError`; each constructor of
  `ConvError` names the exception the source raises at that point.
  A dictionary lookup that may raise `KeyError` is an `Option`-valued lookup.
* The account converter parameter accepts either a `dict` or a callable in the
  source; both variants present the same behaviour (map a string to a string,
  failing on unknown input), so the embedding uses one `String → Option String`
  parameter.
* Python `sorted` is a stable ascending sort; a stable sort is a unique
  function of the comparison and the input list, and it is modelled here by
  `List.insertionSort`, which is stable.
* File loading and saving (`loader.load_file`, `Buchungsstapel.save`,
  `printer.print_entries`) are external I/O collaborators; the converters are
  modelled on the already-loaded values, exactly as the source's own
  `isinstance(datev_file, datev.Buchungsstapel)` branch consumes them.
* The `pydatev.Buchungsstapel` container is an external collaborator whose
  code is not part of this repository.  Modelled from the spec: a batch is
  header metadata plus an ordered sequence of rows; `add_buchung` appends a
  row whose optional fields may be set right after creation (the embedding
  builds the finished row in one step).
-/

/-- Calendar date, modelling `datetime.date` (year, month, day). -/
structure Date where
  year : Int
  month : Nat
  day : Nat
deriving DecidableEq, Repr

/-- Lexicographic date comparison, modelling Python `date <= date`. -/
def dateLe (a b : Date) : Bool :=
  decide (a.year < b.year) ||
    (decide (a.year = b.year) &&
      (decide (a.month < b.month) ||
        (decide (a.month = b.month) && decide (a.day ≤ b.day))))

/-- A date that `datetime.date` would accept; every real date satisfies
`1 ≤ month ≤ 12` and `1 ≤ day ≤ 31`. -/
def validDate (d : Date) : Prop :=
  1 ≤ d.month ∧ d.month ≤ 12 ∧ 1 ≤ d.day ∧ d.day ≤ 31

instance (d : Date) : Decidable (validDate d) := by
  unfold validDate; infer_instance

/-- One leg of a beancount transaction: `posting.account`,
`posting.units.number`, `posting.units.currency`. -/
structure Posting where
  account : String
  number : ℚ
  currency : String
deriving DecidableEq, Repr

/-- A beancount transaction (`beancount.core.data.Transaction`), restricted to
the fields the converters read or write. -/
structure Transaction where
  date : Date
  flag : String
  payee : String
  narration : String
  postings : List Posting
  meta : List (String × String)
deriving DecidableEq, Repr

/-- One row of a DATEV Buchungsstapel, with the fields the converters use:
amount, debit/credit indicator, account, counter account, booking date,
free text, optional currency override. -/
structure BuchungsRow where
  umsatz : ℚ
  sollHaben : String
  konto : String
  gegenkonto : String
  belegdatum : Date
  buchungstext : String
  wkzUmsatz : Option String
deriving DecidableEq, Repr

/-- Modelled from the spec: the external `pydatev.Buchungsstapel` container is
header metadata plus an ordered sequence of rows (created empty, rows appended
one per converted transaction, iterated once in the other direction). -/
structure Buchungsstapel where
  berater : Int
  mandant : Int
  wirtschaftsjahrBeginn : Date
  sachkontennummernlaenge : Int
  datumVon : Date
  datumBis : Date
  waehrungskennzeichen : String
  rows : List BuchungsRow
deriving DecidableEq, Repr

/-- The exceptions the source can raise, one constructor per `raise` site or
built-in error. -/
inductive ConvError where
  /-- `ValueError("Start and stop date need to be within the year.")` -/
  | validationError : ConvError
  /-- `IndexError`: `postings[0]` on an empty posting list, or
  `most_common()[0]` on an empty counter, or `a[0]` on an empty field. -/
  | indexError : ConvError
  /-- `ValueError`: unpacking `p1,p2 = t.postings` when there are fewer than
  two postings. -/
  | valueErrorUnpack : ConvError
  /-- `KeyError` from a dict account converter (or an error a callable one
  raises on unknown input). -/
  | keyError : ConvError
  /-- `AttributeError`: iterating `metadata.items()` when `metadata is None`. -/
  | attributeError : ConvError
  /-- `decimal.InvalidOperation`: prefixing a minus sign to the string of a
  negative amount. -/
  | invalidDecimal : ConvError
  /-- `IOError("Wildcards not allowed.")` -/
  | wildcardsNotAllowed : ConvError
  /-- `IOError("Not a valid account number: ...")` -/
  | invalidAccountNumber : ConvError
deriving DecidableEq, Repr

/-- `Counter(l).most_common()[0][0]`: the most frequent element of `l`, ties
broken by first occurrence (`Counter` keeps insertion order and
`most_common` sorts stably by descending count); `none` when `l` is empty,
where the source raises `IndexError`. -/
def mostCommon (l : List String) : Option String :=
  l.foldl
    (fun best x =>
      match best with
      | none => some x
      | some b => if l.count b < l.count x then some x else some b)
    none

/-- The `postings[0].units.currency` comprehension over the filtered
transactions; `postings[0]` raises `IndexError` on an empty posting list. -/
def firstCurrencies : List Transaction → Except ConvError (List String)
  | [] => .ok []
  | t :: ts =>
    match t.postings with
    | [] => .error .indexError
    | p :: _ =>
      match firstCurrencies ts with
      | .error e => .error e
      | .ok rest => .ok (p.currency :: rest)

/-- Defaulting and validation of `date_start` / `date_stop`: a missing date
becomes `dflt`, a supplied date whose year differs from `year` raises
`ValueError`. -/
def checkDate (year : Int) (dflt : Date) : Option Date → Except ConvError Date
  | none => .ok dflt
  | some d => if d.year ≠ year then .error .validationError else .ok d

/-- The body of the `for t in transactions` loop of `beancount2datev`:
skip (with a printed warning, not modelled) when there are more than two
postings, unpack `p1,p2 = t.postings` (a `ValueError` when there are fewer
than two), swap so that the negative posting is the counter side, resolve
both accounts, and emit the row (`add_buchung` plus the `Buchungstext` and
conditional `WKZ Umsatz` field assignments). -/
def convertTransaction (conv : String → Option String) (default_currency : String)
    (t : Transaction) : Except ConvError (Option BuchungsRow) :=
  if 2 < t.postings.length then .ok none
  else
    match t.postings with
    | [q1, q2] =>
      let pp := if q1.number < 0 then (q2, q1) else (q1, q2)
      match conv pp.1.account with
      | none => .error .keyError
      | some k =>
        match conv pp.2.account with
        | none => .error .keyError
        | some gk =>
          .ok (some
            { umsatz := pp.1.number
              sollHaben := "S"
              konto := k
              gegenkonto := gk
              belegdatum := t.date
              buchungstext := t.narration.take 60
              wkzUmsatz :=
                if pp.1.currency ≠ default_currency then some pp.1.currency else none })
    | _ => .error .valueErrorUnpack

/-- The whole `for t in transactions` loop: rows are appended in transaction
order, skipped transactions contribute nothing, the first exception aborts. -/
def processTransactions (conv : String → Option String) (default_currency : String) :
    List Transaction → Except ConvError (List BuchungsRow)
  | [] => .ok []
  | t :: ts =>
    match convertTransaction conv default_currency t with
    | .error e => .error e
    | .ok r =>
      match processTransactions conv default_currency ts with
      | .error e => .error e
      | .ok rest =>
        .ok (match r with
             | none => rest
             | some row => row :: rest)

/-- `beancount2datev`, on the already-loaded transaction list: default or
validate the date range, filter to `[date_start, date_stop]`, sort by date,
compute the default currency as the most common first-posting currency,
convert each transaction to a row, and return the populated batch
(`berater = 1001`, `mandant = 1`, fiscal year start January 1, account-number
length 4, as hard-coded in the source).  Saving the batch to a file is
external I/O and not modelled. -/
def beancount2datev (transactions : List Transaction) (conv : String → Option String)
    (year : Int) (date_start date_stop : Option Date) : Except ConvError Buchungsstapel :=
  match checkDate year (Date.mk year 1 1) date_start with
  | .error e => .error e
  | .ok ds =>
    match checkDate year (Date.mk year 12 31) date_stop with
    | .error e => .error e
    | .ok dstop =>
      let ts := transactions.filter (fun t => dateLe ds t.date && dateLe t.date dstop)
      let ts := ts.insertionSort (fun a b => dateLe a.date b.date = true)
      match firstCurrencies ts with
      | .error e => .error e
      | .ok currencies =>
        match mostCommon currencies with
        | none => .error .indexError
        | some default_currency =>
          match processTransactions conv default_currency ts with
          | .error e => .error e
          | .ok rows =>
            .ok { berater := 1001
                  mandant := 1
                  wirtschaftsjahrBeginn := Date.mk year 1 1
                  sachkontennummernlaenge := 4
                  datumVon := ds
                  datumBis := dstop
                  waehrungskennzeichen := default_currency
                  rows := rows }

/-- `D(sign + str(u))`: prefixing the sign string (`""` or `"-"`) to the
decimal string of `u`.  With the `"-"` prefix this negates a non-negative `u`
and raises `decimal.InvalidOperation` on a negative `u` (whose string already
carries a minus sign, making the prefixed string unparsable). -/
def decimalOfSigned (sign : String) (u : ℚ) : Except ConvError ℚ :=
  if sign = "-" then
    if u < 0 then .error .invalidDecimal else .ok (-u)
  else .ok u

/-- `entry[key]` for the string-valued row fields the embedding carries; the
remaining DATEV columns are optional fields never set by this program, read
back as `None` (hence `none` here). -/
def rowField (entry : BuchungsRow) (key : String) : Option String :=
  if key = "WKZ Umsatz" then entry.wkzUmsatz
  else if key = "Buchungstext" then some entry.buchungstext
  else none

/-- Python dict assignment `d[k] = v` on an insertion-ordered dictionary,
modelled on an association list: replace the value at an existing key in
place, otherwise append the new pair. -/
def dictInsert {α β : Type} [DecidableEq α] : List (α × β) → α → β → List (α × β)
  | [], k, v => [(k, v)]
  | p :: rest, k, v => if p.1 = k then (k, v) :: rest else p :: dictInsert rest k v

/-- Python dict lookup `d[k]`, `none` where the source raises `KeyError`. -/
def dictLookup {α β : Type} [DecidableEq α] : List (α × β) → α → Option β
  | [], _ => none
  | p :: rest, k => if p.1 = k then some p.2 else dictLookup rest k

/-- The body of the `for entry in buchungsstapel.data` loop of
`datev2beancount`: derive the sign prefixes from the debit/credit indicator,
resolve both account numbers, pick the row's currency override or the batch
header currency, build the two postings, copy the configured metadata fields
(an `AttributeError` when the metadata parameter was left at `None`), and
build the transaction. -/
def convertRow (conv : String → Option String) (metadata : Option (List (String × String)))
    (flag payee headerCurrency : String) (entry : BuchungsRow) :
    Except ConvError Transaction :=
  let sign1 : String := if entry.sollHaben = "S" then "" else "-"
  let sign2 : String := if entry.sollHaben = "S" then "-" else ""
  match conv entry.konto with
  | none => .error .keyError
  | some k =>
    match conv entry.gegenkonto with
    | none => .error .keyError
    | some gk =>
      let currency :=
        match entry.wkzUmsatz with
        | some w => w
        | none => headerCurrency
      match decimalOfSigned sign1 entry.umsatz with
      | .error e => .error e
      | .ok a1 =>
        match decimalOfSigned sign2 entry.umsatz with
        | .error e => .error e
        | .ok a2 =>
          match metadata with
          | none => .error .attributeError
          | some md =>
            let kvl := md.foldl
              (fun acc kv =>
                match rowField entry kv.1 with
                | none => acc
                | some v => dictInsert acc kv.2 v)
              []
            .ok { date := entry.belegdatum
                  flag := flag
                  payee := payee
                  narration := entry.buchungstext
                  postings := [⟨k, a1, currency⟩, ⟨gk, a2, currency⟩]
                  meta := kvl }

/-- The whole row loop of `datev2beancount`: transactions accumulate in row
order, the first exception aborts. -/
def processRows (conv : String → Option String) (metadata : Option (List (String × String)))
    (flag payee headerCurrency : String) :
    List BuchungsRow → Except ConvError (List Transaction)
  | [] => .ok []
  | r :: rest =>
    match convertRow conv metadata flag payee headerCurrency r with
    | .error e => .error e
    | .ok t =>
      match processRows conv metadata flag payee headerCurrency rest with
      | .error e => .error e
      | .ok ts => .ok (t :: ts)

/-- `datev2beancount`, on an already-loaded batch (the source's
`isinstance(datev_file, datev.Buchungsstapel)` branch): convert every row and
sort the accumulated transactions ascending by date.  Appending to a beancount
file and printing are external I/O and not modelled. -/
def datev2beancount (buchungsstapel : Buchungsstapel) (conv : String → Option String)
    (flag : String) (metadata : Option (List (String × String))) (payee : String) :
    Except ConvError (List Transaction) :=
  match processRows conv metadata flag payee buchungsstapel.waehrungskennzeichen
      buchungsstapel.rows with
  | .error e => .error e
  | .ok entries => .ok (entries.insertionSort (fun a b => dateLe a.date b.date = true))

/-- One pass of the `for i in range(len(account_number))` loop of
`expand_asterisk_wildcard` over the current collection: a partial string with
a digit at position `i` is kept, one with the wildcard at position `i` is
replaced by its ten digit variants, anything else raises `IOError`. -/
def expandStep (i : Nat) : List (List Char) → Except ConvError (List (List Char))
  | [] => .ok []
  | c :: rest =>
    if (c.getD i ' ').isDigit then
      match expandStep i rest with
      | .error e => .error e
      | .ok tl => .ok (c :: tl)
    else if c.getD i ' ' = '*' then
      match expandStep i rest with
      | .error e => .error e
      | .ok tl =>
        .ok (((List.range 10).map (fun digit => c.set i (Char.ofNat (48 + digit)))) ++ tl)
    else .error .invalidAccountNumber

/-- The outer position loop of `expand_asterisk_wildcard`. -/
def expandLoop : List Nat → List (List Char) → Except ConvError (List (List Char))
  | [], coll => .ok coll
  | i :: is, coll =>
    match expandStep i coll with
    | .error e => .error e
    | .ok coll2 => expandLoop is coll2

/-- `expand_asterisk_wildcard`: starting from the single pattern, expand every
wildcard position left to right into the ten digits.  (The final
`''.join(c)` only converts the character lists back to strings; the embedding
keeps the character lists.) -/
def expand_asterisk_wildcard (account_number : List Char) :
    Except ConvError (List (List Char)) :=
  expandLoop (List.range account_number.length) [account_number]

/-- A dictionary returned by `load_account_dictionary`: the insertion-ordered
entries plus, for a `defaultdict`, the default value produced on a miss
(`none` models a plain `dict`). -/
structure AccountDict (κ ν : Type) where
  entries : List (κ × ν)
  defaultValue : Option ν
deriving DecidableEq, Repr

/-- Dictionary access `d[k]`: the stored value, else the `defaultdict`
default; `none` models `KeyError` on a plain `dict`. -/
def AccountDict.get {κ ν : Type} [DecidableEq κ] (d : AccountDict κ ν) (k : κ) : Option ν :=
  match dictLookup d.entries k with
  | some v => some v
  | none => d.defaultValue

/-- The `for a,b in reader` loop of `load_account_dictionary`, building the
number-to-name entries `d1`: skip comment lines (`a[0] == '#'`, an
`IndexError` on an empty field), expand wildcard patterns when allowed and
raise `IOError` otherwise, insert plain numbers directly. -/
def loadLoop (allow_wildcards : Bool) :
    List (List Char × String) → List (List Char × String) →
      Except ConvError (List (List Char × String))
  | [], d1 => .ok d1
  | (a, b) :: rest, d1 =>
    match a with
    | [] => .error .indexError
    | c :: _ =>
      if c = '#' then loadLoop allow_wildcards rest d1
      else if a.contains '*' then
        if allow_wildcards then
          match expand_asterisk_wildcard a with
          | .error e => .error e
          | .ok ans => loadLoop allow_wildcards rest (ans.foldl (fun d an => dictInsert d an b) d1)
        else .error .wildcardsNotAllowed
      else loadLoop allow_wildcards rest (dictInsert d1 a b)

/-- `load_account_dictionary`, on the already-parsed csv rows
`(account number or pattern, account name)`: build the number-to-name
dictionary `d1` (a `defaultdict` when a default account name is configured),
then build the name-to-number dictionary `d2` by `d2[d1[key]] = key` over the
keys of `d1` in insertion order (so on shared names the last key wins). -/
def load_account_dictionary (rows : List (List Char × String)) (allow_wildcards : Bool)
    (default_account_name : Option String) :
    Except ConvError (AccountDict (List Char) String × AccountDict String (List Char)) :=
  match loadLoop allow_wildcards rows [] with
  | .error e => .error e
  | .ok e1 =>
    let e2 := e1.foldl (fun d2 p => dictInsert d2 p.2 p.1) []
    .ok (⟨e1, default_account_name⟩, ⟨e2, none⟩)

/-- A concrete sample: nine 2-posting transactions and one 3-posting
transaction, all in January 2021 (the spec's 9-plus-1 example). -/
def sampleTransactions : List Transaction :=
  (List.range 9).map (fun i =>
    { date := Date.mk 2021 1 (i + 1)
      flag := "txn"
      payee := ""
      narration := "sample"
      postings := [⟨"Assets:Bank", 100, "EUR"⟩, ⟨"Expenses:Food", -100, "EUR"⟩]
      meta := [] })
  ++ [{ date := Date.mk 2021 1 15
        flag := "txn"
        payee := ""
        narration := "split"
        postings := [⟨"Assets:Bank", 100, "EUR"⟩, ⟨"Expenses:Food", -60, "EUR"⟩,
                     ⟨"Expenses:Books", -40, "EUR"⟩]
        meta := [] }]

/-- Concrete round-trip sample: lunch paid from the bank account, negative
posting listed first. -/
def roundTripTxn : Transaction :=
  { date := Date.mk 2021 3 5, flag := "txn", payee := "", narration := "lunch",
    postings := [⟨"Expenses:Food", -100, "EUR"⟩, ⟨"Assets:Bank", 100, "EUR"⟩],
    meta := [] }

/-- Concrete name-to-number map for the round-trip sample. -/
def nameToNumber : String → Option String :=
  fun a =>
    if a = "Assets:Bank" then some "1000"
    else if a = "Expenses:Food" then some "4000"
    else none

/-- Concrete number-to-name map, the inverse of `nameToNumber`. -/
def numberToName : String → Option String :=
  fun n =>
    if n = "1000" then some "Assets:Bank"
    else if n = "4000" then some "Expenses:Food"
    else none

/-- The fate of one partial string at position `i` inside `expandStep`:
kept when the character is a digit, replaced by its ten digit variants when it
is the wildcard.  (Used to state the loop invariant; `expandStep` itself is
the faithful loop body above.) -/
def variants (i : Nat) (c : List Char) : List (List Char) :=
  if (c.getD i ' ').isDigit then [c]
  else (List.range 10).map (fun digit => c.set i (Char.ofNat (48 + digit)))

/-- Invariant of the expansion loop on pattern `a`: after the positions before
`i` have been processed, a partial string has the pattern length, agrees with
the pattern from position `i` on, and on earlier positions agrees with the
pattern at digit positions and holds a digit at wildcard positions. -/
def Shape (a : List Char) (i : Nat) (c : List Char) : Prop :=
  c.length = a.length ∧
  (∀ j, i ≤ j → c.getD j ' ' = a.getD j ' ') ∧
  (∀ j, j < i →
    ((a.getD j ' ').isDigit = true → c.getD j ' ' = a.getD j ' ') ∧
    (a.getD j ' ' = '*' → (c.getD j ' ').isDigit = true))

/-! ## Helper lemmas -/

theorem dateLe_refl (a : Date) : dateLe a a = true := by
  simp [dateLe]

theorem dateLe_trans {a b c : Date} (h1 : dateLe a b = true) (h2 : dateLe b c = true) :
    dateLe a c = true := by
  simp only [dateLe, Bool.or_eq_true, Bool.and_eq_true, decide_eq_true_eq] at h1 h2 ⊢
  omega

theorem dateLe_total (a b : Date) : dateLe a b = true ∨ dateLe b a = true := by
  simp only [dateLe, Bool.or_eq_true, Bool.and_eq_true, decide_eq_true_eq]
  omega

theorem convertRow_metadata_none (conv : String → Option String) (flag payee hc : String)
    (entry : BuchungsRow) :
    ∃ e, convertRow conv none flag payee hc entry = .error e := by
  simp only [convertRow]
  rcases conv entry.konto with _ | k
  · exact ⟨_, rfl⟩
  rcases conv entry.gegenkonto with _ | gk
  · exact ⟨_, rfl⟩
  rcases decimalOfSigned (if entry.sollHaben = "S" then "" else "-") entry.umsatz with e | a1
  · exact ⟨_, rfl⟩
  rcases decimalOfSigned (if entry.sollHaben = "S" then "-" else "") entry.umsatz with e | a2
  · exact ⟨_, rfl⟩
  exact ⟨_, rfl⟩

theorem convertRow_metadata_none_attr {conv : String → Option String} {entry : BuchungsRow}
    {k gk : String} (flag payee hc : String)
    (hk : conv entry.konto = some k) (hg : conv entry.gegenkonto = some gk)
    (hu : 0 ≤ entry.umsatz) :
    convertRow conv none flag payee hc entry = .error .attributeError := by
  have hne : ("" : String) ≠ "-" := by decide
  by_cases hs : entry.sollHaben = "S" <;>
    simp [convertRow, hk, hg, hs, decimalOfSigned, hne, not_lt.mpr hu]

/-! ## Claim C7: date range validation and defaulting -/

/-- Claim C7: `beancount2datev` raises a ValidationError (the source's
`ValueError`) when a supplied start or stop date has a year different from the
target year — for the stop date under any start that passes its own year
check, since the start is checked first — and each absent date individually
defaults to January 1 respectively December 31 of the target year, whatever
the other parameter is. -/
theorem claim_C7 :
    (∀ (ts : List Transaction) (conv : String → Option String) (year : Int)
        (d : Date) (dstop : Option Date), d.year ≠ year →
        beancount2datev ts conv year (some d) dstop = .error .validationError) ∧
    (∀ (ts : List Transaction) (conv : String → Option String) (year : Int)
        (dstart : Option Date) (d : Date),
        (∀ d0, dstart = some d0 → d0.year = year) → d.year ≠ year →
        beancount2datev ts conv year dstart (some d) = .error .validationError) ∧
    (∀ (ts : List Transaction) (conv : String → Option String) (year : Int)
        (dstop : Option Date),
        beancount2datev ts conv year none dstop =
          beancount2datev ts conv year (some (Date.mk year 1 1)) dstop) ∧
    (∀ (ts : List Transaction) (conv : String → Option String) (year : Int)
        (dstart : Option Date),
        beancount2datev ts conv year dstart none =
          beancount2datev ts conv year dstart (some (Date.mk year 12 31))) := by
  refine ⟨?_, ?_, ?_, ?_⟩
  · intro ts conv year d dstop h
    simp [beancount2datev, checkDate, h]
  · intro ts conv year dstart d hstart h
    cases dstart with
    | none => simp [beancount2datev, checkDate, h]
    | some d0 =>
      have h0 : d0.year = year := hstart d0 rfl
      simp [beancount2datev, checkDate, h0, h]
  · intro ts conv year dstop
    simp [beancount2datev, checkDate]
  · intro ts conv year dstart
    unfold beancount2datev
    cases hds : checkDate year (Date.mk year 1 1) dstart with
    | error e => simp [hds]
    | ok ds => simp [hds, checkDate]

/-- Witness for C7 at concrete inputs: a wrong-year start, and a wrong-year
stop behind a supplied valid-year start. -/
theorem claim_C7_witness :
    beancount2datev [] (fun _ => none) 2021 (some (Date.mk 2020 6 1)) none =
        .error .validationError ∧
    beancount2datev [] (fun _ => none) 2021 (some (Date.mk 2021 1 1))
        (some (Date.mk 2022 5 1)) = .error .validationError :=
  ⟨claim_C7.1 [] (fun _ => none) 2021 (Date.mk 2020 6 1) none (by decide),
   claim_C7.2.1 [] (fun _ => none) 2021 (some (Date.mk 2021 1 1)) (Date.mk 2022 5 1)
     (fun d0 h => by injection h with h2; rw [← h2]) (by decide)⟩

/-! ## Claim C4: empty date range -/

/-- Claim C4 (code bug): the spec promises an empty batch when the date range
contains no transactions, but with `date_start = 2021-06-01` and
`date_stop = 2021-05-01` (both within year 2021) the source always raises
`IndexError`: the filtered transaction list is empty, so
`Counter([]).most_common()[0]` indexes into an empty list. -/
theorem claim_C4 : ∀ (ts : List Transaction) (conv : String → Option String),
    beancount2datev ts conv 2021 (some (Date.mk 2021 6 1)) (some (Date.mk 2021 5 1)) =
      .error .indexError := by
  intro ts conv
  have hfil : ts.filter
      (fun t => dateLe (Date.mk 2021 6 1) t.date && dateLe t.date (Date.mk 2021 5 1)) = [] := by
    rw [List.filter_eq_nil_iff]
    intro t _ hb
    rw [Bool.and_eq_true] at hb
    have h := dateLe_trans hb.1 hb.2
    exact absurd h (by decide)
  simp [beancount2datev, checkDate, hfil, List.insertionSort, firstCurrencies, mostCommon]

/-! ## Claim C10: metadata default is unusable on non-empty input -/

/-- Claim C10: on a batch with at least one row, calling `datev2beancount`
with the metadata parameter left at its default `None` fails before producing
any transaction: the row loop iterates `metadata.items()` unconditionally.
The first conjunct shows some exception is always raised; the second shows it
is precisely the `AttributeError` from `None.items()` whenever the row itself
converts cleanly (resolvable accounts, unsigned amount). -/
theorem claim_C10 :
    (∀ (stapel : Buchungsstapel) (conv : String → Option String) (flag payee : String),
        stapel.rows ≠ [] →
        ∃ e, datev2beancount stapel conv flag none payee = .error e) ∧
    (∀ (stapel : Buchungsstapel) (conv : String → Option String) (flag payee : String),
        (∀ s, (conv s).isSome = true) → (∀ r ∈ stapel.rows, 0 ≤ r.umsatz) →
        stapel.rows ≠ [] →
        datev2beancount stapel conv flag none payee = .error .attributeError) := by
  constructor
  · intro stapel conv flag payee h
    unfold datev2beancount
    rcases hr : stapel.rows with _ | ⟨r, rest⟩
    · exact absurd hr h
    obtain ⟨e, he⟩ := convertRow_metadata_none conv flag payee
      stapel.waehrungskennzeichen r
    simp [processRows, he]
  · intro stapel conv flag payee hconv hu h
    unfold datev2beancount
    rcases hr : stapel.rows with _ | ⟨r, rest⟩
    · exact absurd hr h
    obtain ⟨k, hk⟩ := Option.isSome_iff_exists.mp (hconv r.konto)
    obtain ⟨gk, hg⟩ := Option.isSome_iff_exists.mp (hconv r.gegenkonto)
    have he := convertRow_metadata_none_attr flag payee stapel.waehrungskennzeichen hk hg
      (hu r (by rw [hr]; exact List.mem_cons_self r rest))
    simp [processRows, he]

/-- Witness for C10 at a concrete one-row batch. -/
theorem claim_C10_witness :
    datev2beancount
      { berater := 1001, mandant := 1, wirtschaftsjahrBeginn := Date.mk 2021 1 1,
        sachkontennummernlaenge := 4, datumVon := Date.mk 2021 1 1,
        datumBis := Date.mk 2021 12 31, waehrungskennzeichen := "EUR",
        rows := [{ umsatz := 100, sollHaben := "S", konto := "1000", gegenkonto := "4000",
                   belegdatum := Date.mk 2021 3 5, buchungstext := "lunch",
                   wkzUmsatz := none }] }
      (fun _ => some "Assets:Bank") "txn" none "" = .error .attributeError :=
  claim_C10.2 _ (fun _ => some "Assets:Bank") "txn" ""
    (fun _ => rfl) (by decide) (by decide)

/-! ## Dictionary lemmas -/

theorem dictLookup_dictInsert {α β : Type} [DecidableEq α] (d : List (α × β)) (k : α) (v : β)
    (x : α) :
    dictLookup (dictInsert d k v) x = if x = k then some v else dictLookup d x := by
  induction d with
  | nil =>
    by_cases h : x = k
    · subst h; simp [dictInsert, dictLookup]
    · have h2 : k ≠ x := Ne.symm h
      simp [dictInsert, dictLookup, h, h2]
  | cons p rest ih =>
    by_cases hpk : p.1 = k
    · by_cases hx : x = k
      · subst hx; simp [dictInsert, dictLookup, hpk]
      · have h2 : k ≠ x := Ne.symm hx
        have h3 : p.1 ≠ x := by rw [hpk]; exact h2
        simp [dictInsert, dictLookup, hpk, hx, h2, h3]
    · by_cases hpx : p.1 = x
      · have hx : x ≠ k := fun h => hpk (by rw [hpx, h])
        simp [dictInsert, dictLookup, hpk, hpx, hx, ih]
      · simp [dictInsert, dictLookup, hpk, hpx, ih]

theorem keys_dictInsert {α β : Type} [DecidableEq α] (d : List (α × β)) (k : α) (v : β) :
    (dictInsert d k v).map Prod.fst =
      if k ∈ d.map Prod.fst then d.map Prod.fst else d.map Prod.fst ++ [k] := by
  induction d with
  | nil => simp [dictInsert]
  | cons p rest ih =>
    by_cases hpk : p.1 = k
    · simp [dictInsert, hpk]
    · have h2 : ¬ (k = p.1) := fun h => hpk h.symm
      by_cases hk : k ∈ rest.map Prod.fst <;>
        simp [dictInsert, hpk, ih, hk, h2]

theorem nodup_keys_dictInsert {α β : Type} [DecidableEq α] {d : List (α × β)} (k : α) (v : β)
    (h : (d.map Prod.fst).Nodup) : ((dictInsert d k v).map Prod.fst).Nodup := by
  rw [keys_dictInsert]
  by_cases hk : k ∈ d.map Prod.fst
  · simpa [hk]
  · rw [if_neg hk, ← List.concat_eq_append]
    exact h.concat hk

theorem dictLookup_of_mem {α β : Type} [DecidableEq α] {d : List (α × β)} {k : α} {v : β}
    (hnd : (d.map Prod.fst).Nodup) (hm : (k, v) ∈ d) : dictLookup d k = some v := by
  induction d with
  | nil => simp at hm
  | cons p rest ih =>
    rcases List.mem_cons.mp hm with h | h
    · rw [← h]; simp [dictLookup]
    · have hk : k ∈ rest.map Prod.fst := List.mem_map.mpr ⟨(k, v), h, rfl⟩
      have hnd1 : (p.1 :: rest.map Prod.fst).Nodup := by
        rw [List.map_cons] at hnd; exact hnd
      have hnd2 := List.nodup_cons.mp hnd1
      have hp : p.1 ≠ k := fun he => hnd2.1 (he ▸ hk)
      simp [dictLookup, hp, ih hnd2.2 h]

theorem nodup_keys_foldl_dictInsert {α β : Type} [DecidableEq α] (l : List α) (b : β)
    (d : List (α × β)) (h : (d.map Prod.fst).Nodup) :
    ((l.foldl (fun d an => dictInsert d an b) d).map Prod.fst).Nodup := by
  induction l generalizing d with
  | nil => simpa
  | cons a l ih => exact ih _ (nodup_keys_dictInsert a b h)

theorem loadLoop_nodup_keys (aw : Bool) (rows : List (List Char × String))
    (d : List (List Char × String)) (h : (d.map Prod.fst).Nodup)
    {e1 : List (List Char × String)} (hl : loadLoop aw rows d = .ok e1) :
    (e1.map Prod.fst).Nodup := by
  induction rows generalizing d with
  | nil =>
    simp only [loadLoop, Except.ok.injEq] at hl
    rw [← hl]; exact h
  | cons r rest ih =>
    obtain ⟨a, b⟩ := r
    cases a with
    | nil => simp [loadLoop] at hl
    | cons c ctail =>
      simp only [loadLoop] at hl
      split at hl
      · exact ih _ h hl
      · split at hl
        · split at hl
          · split at hl
            · simp at hl
            · exact ih _ (nodup_keys_foldl_dictInsert _ _ _ h) hl
          · simp at hl
        · exact ih _ (nodup_keys_dictInsert _ _ h) hl

theorem dictLookup_foldl_swap {α β : Type} [DecidableEq α] [DecidableEq β]
    (l : List (α × β)) (acc : List (β × α)) (n : β) (k : α)
    (h : dictLookup (l.foldl (fun d2 p => dictInsert d2 p.2 p.1) acc) n = some k) :
    (k, n) ∈ l ∨ dictLookup acc n = some k := by
  induction l generalizing acc with
  | nil => right; simpa using h
  | cons p rest ih =>
    simp only [List.foldl_cons] at h
    rcases ih _ h with hmem | hacc
    · exact Or.inl (List.mem_cons_of_mem _ hmem)
    · rw [dictLookup_dictInsert] at hacc
      by_cases hn : n = p.2
      · rw [if_pos hn] at hacc
        injection hacc with hk
        left
        have hpe : p = (k, n) := by rw [← hk, hn]
        rw [← hpe]
        exact List.mem_cons_self p rest
      · rw [if_neg hn] at hacc
        exact Or.inr hacc

theorem load_defaultValue {rows : List (List Char × String)} {aw : Bool}
    {dflt : Option String} {d1 : AccountDict (List Char) String}
    {d2 : AccountDict String (List Char)}
    (h : load_account_dictionary rows aw dflt = .ok (d1, d2)) :
    d1.defaultValue = dflt := by
  unfold load_account_dictionary at h
  cases hl : loadLoop aw rows [] with
  | error e => rw [hl] at h; simp at h
  | ok e1 =>
    rw [hl] at h
    simp only [Except.ok.injEq, Prod.mk.injEq] at h
    rw [← h.1]

theorem accountDictGet_of_lookup_none {κ ν : Type} [DecidableEq κ] {d : AccountDict κ ν}
    {k : κ} (h : dictLookup d.entries k = none) : d.get k = d.defaultValue := by
  unfold AccountDict.get
  rw [h]

/-! ## Claim C8: default account name on missing numbers -/

/-- Claim C8: when `load_account_dictionary` is called with a default account
name, the returned number-to-name table is a `defaultdict` that yields that
default for any unmapped account number; without a default, the same lookup
fails (`KeyError`, modelled as `none`). -/
theorem claim_C8 :
    (∀ (rows : List (List Char × String)) (aw : Bool) (dn : String) (k : List Char)
        (d1 : AccountDict (List Char) String) (d2 : AccountDict String (List Char)),
        load_account_dictionary rows aw (some dn) = .ok (d1, d2) →
        dictLookup d1.entries k = none → d1.get k = some dn) ∧
    (∀ (rows : List (List Char × String)) (aw : Bool) (k : List Char)
        (d1 : AccountDict (List Char) String) (d2 : AccountDict String (List Char)),
        load_account_dictionary rows aw none = .ok (d1, d2) →
        dictLookup d1.entries k = none → d1.get k = none) := by
  constructor
  · intro rows aw dn k d1 d2 hload hmiss
    rw [accountDictGet_of_lookup_none hmiss, load_defaultValue hload]
  · intro rows aw k d1 d2 hload hmiss
    rw [accountDictGet_of_lookup_none hmiss, load_defaultValue hload]

/-- Witness for C8: the number 99 is not in the loaded table; with a default
it resolves to the default, without one it fails. -/
theorem claim_C8_witness :
    AccountDict.get
        (⟨[(['1', '0'], "Assets:Bank")], some "Expenses:Misc"⟩ :
          AccountDict (List Char) String) ['9', '9'] = some "Expenses:Misc" ∧
    AccountDict.get
        (⟨[(['1', '0'], "Assets:Bank")], none⟩ :
          AccountDict (List Char) String) ['9', '9'] = none :=
  ⟨claim_C8.1 [(['1', '0'], "Assets:Bank")] false "Expenses:Misc" ['9', '9'] _ _ rfl rfl,
   claim_C8.2 [(['1', '0'], "Assets:Bank")] false ['9', '9'] _ _ rfl rfl⟩

/-! ## Claim C9: the two tables are mutually consistent -/

/-- Claim C9: for every dictionary file accepted by `load_account_dictionary`,
the returned tables satisfy `d1[d2[n]] = n` for every name `n` in the domain
of the name-to-number table `d2`: the number picked for a name always maps
back to that very name, even when wildcards or duplicate entries make many
numbers share one name. -/
theorem claim_C9 : ∀ (rows : List (List Char × String)) (aw : Bool) (dflt : Option String)
    (d1 : AccountDict (List Char) String) (d2 : AccountDict String (List Char)),
    load_account_dictionary rows aw dflt = .ok (d1, d2) →
    ∀ (n : String) (k : List Char), d2.get n = some k → d1.get k = some n := by
  intro rows aw dflt d1 d2 hload n k hget
  unfold load_account_dictionary at hload
  cases hl : loadLoop aw rows [] with
  | error e => rw [hl] at hload; simp at hload
  | ok e1 =>
    rw [hl] at hload
    simp only [Except.ok.injEq, Prod.mk.injEq] at hload
    obtain ⟨h1, h2⟩ := hload
    subst h1
    subst h2
    have hnd : (e1.map Prod.fst).Nodup := loadLoop_nodup_keys aw rows [] (by simp) hl
    have hl2 : dictLookup (e1.foldl (fun d2 p => dictInsert d2 p.2 p.1) []) n = some k := by
      unfold AccountDict.get at hget
      rcases hh : dictLookup (e1.foldl (fun d2 p => dictInsert d2 p.2 p.1) []) n with _ | v
      · rw [hh] at hget
        exact absurd hget (by simp)
      · rw [hh] at hget
        simp only [Option.some.injEq] at hget
        rw [hh, hget]
    rcases dictLookup_foldl_swap e1 [] n k hl2 with hmem | hf
    · have hfound := dictLookup_of_mem hnd hmem
      unfold AccountDict.get
      rw [hfound]
    · simp [dictLookup] at hf

/-- Witness for C9 at a concrete two-entry file sharing one name. -/
theorem claim_C9_witness :
    AccountDict.get
        (⟨[(['1', '0'], "Expenses:Food"), (['2', '0'], "Expenses:Food")], none⟩ :
          AccountDict (List Char) String) ['2', '0'] = some "Expenses:Food" :=
  claim_C9 [(['1', '0'], "Expenses:Food"), (['2', '0'], "Expenses:Food")] false none
    _ _ rfl "Expenses:Food" ['2', '0'] rfl

/-! ## Claim C5: debit/credit selection and the emitted row -/

/-- Claim C5: for a 2-posting transaction with exactly one negative posting,
the emitted row always puts the negative posting on the counter-account
(credit) side regardless of order, takes the absolute value of the debit
posting as the amount, sets the debit symbol `S`, truncates the narration to
60 characters, and carries a currency override exactly when the debit
posting's currency differs from the computed default currency.  The first
conjunct is the already-ordered case, the second the swapped case. -/
theorem claim_C5 : ∀ (conv : String → Option String) (dc : String) (t : Transaction)
    (q1 q2 : Posting) (k gk : String), t.postings = [q1, q2] →
    ((0 ≤ q1.number → q2.number < 0 →
      conv q1.account = some k → conv q2.account = some gk →
      convertTransaction conv dc t = .ok (some
        { umsatz := |q1.number|, sollHaben := "S", konto := k, gegenkonto := gk,
          belegdatum := t.date, buchungstext := t.narration.take 60,
          wkzUmsatz := if q1.currency ≠ dc then some q1.currency else none })) ∧
     (q1.number < 0 → 0 ≤ q2.number →
      conv q2.account = some k → conv q1.account = some gk →
      convertTransaction conv dc t = .ok (some
        { umsatz := |q2.number|, sollHaben := "S", konto := k, gegenkonto := gk,
          belegdatum := t.date, buchungstext := t.narration.take 60,
          wkzUmsatz := if q2.currency ≠ dc then some q2.currency else none }))) := by
  intro conv dc t q1 q2 k gk hpost
  constructor
  · intro h1 h2 hk hgk
    have hs : ¬ (q1.number < 0) := not_lt.mpr h1
    simp [convertTransaction, hpost, hs, hk, hgk, abs_of_nonneg h1]
  · intro h1 h2 hk hgk
    simp [convertTransaction, hpost, h1, hk, hgk, abs_of_nonneg h2]

/-- Witness for C5: the negative posting comes first and still ends up on the
credit side. -/
theorem claim_C5_witness :
    convertTransaction
      (fun a => if a = "Assets:Bank" then some "1000" else
                if a = "Expenses:Food" then some "4000" else none)
      "EUR"
      { date := Date.mk 2021 3 5, flag := "txn", payee := "", narration := "lunch",
        postings := [⟨"Expenses:Food", -100, "EUR"⟩, ⟨"Assets:Bank", 100, "EUR"⟩],
        meta := [] } =
      .ok (some
        { umsatz := |(100 : ℚ)|, sollHaben := "S", konto := "1000", gegenkonto := "4000",
          belegdatum := Date.mk 2021 3 5, buchungstext := String.take "lunch" 60,
          wkzUmsatz := if ("EUR" : String) ≠ "EUR" then some "EUR" else none }) :=
  (claim_C5
    (fun a => if a = "Assets:Bank" then some "1000" else
              if a = "Expenses:Food" then some "4000" else none)
    "EUR"
    { date := Date.mk 2021 3 5, flag := "txn", payee := "", narration := "lunch",
      postings := [⟨"Expenses:Food", -100, "EUR"⟩, ⟨"Assets:Bank", 100, "EUR"⟩],
      meta := [] }
    ⟨"Expenses:Food", -100, "EUR"⟩ ⟨"Assets:Bank", 100, "EUR"⟩ "1000" "4000" rfl).2
    (by decide) (by decide) rfl rfl

/-! ## Claim C3: transactions with other than 2 postings -/

/-- Counterexample to claim C3 as stated: a transaction with a single posting
is not skipped with a warning; unpacking `p1,p2 = t.postings` raises a
`ValueError`, so an exception is raised because of the posting count. -/
theorem claim_C3_counterexample :
    beancount2datev
      [{ date := Date.mk 2021 3 5, flag := "txn", payee := "", narration := "x",
         postings := [⟨"Assets:Bank", 5, "EUR"⟩], meta := [] }]
      (fun _ => some "1000") 2021 none none = .error .valueErrorUnpack := rfl

theorem convertTransaction_two (conv : String → Option String) (dc : String)
    {t : Transaction} {q1 q2 : Posting} (hpost : t.postings = [q1, q2])
    (hconv : ∀ s, (conv s).isSome = true) :
    ∃ row, convertTransaction conv dc t = .ok (some row) := by
  by_cases hs : q1.number < 0
  · obtain ⟨k, hk⟩ := Option.isSome_iff_exists.mp (hconv q2.account)
    obtain ⟨gk, hgk⟩ := Option.isSome_iff_exists.mp (hconv q1.account)
    refine ⟨{ umsatz := q2.number, sollHaben := "S", konto := k, gegenkonto := gk,
              belegdatum := t.date, buchungstext := t.narration.take 60,
              wkzUmsatz := if q2.currency ≠ dc then some q2.currency else none }, ?_⟩
    simp [convertTransaction, hpost, hs, hk, hgk]
  · obtain ⟨k, hk⟩ := Option.isSome_iff_exists.mp (hconv q1.account)
    obtain ⟨gk, hgk⟩ := Option.isSome_iff_exists.mp (hconv q2.account)
    refine ⟨{ umsatz := q1.number, sollHaben := "S", konto := k, gegenkonto := gk,
              belegdatum := t.date, buchungstext := t.narration.take 60,
              wkzUmsatz := if q1.currency ≠ dc then some q1.currency else none }, ?_⟩
    simp [convertTransaction, hpost, hs, hk, hgk]

/-- Claim C3, amended: the ledger-to-batch loop skips (with a printed
warning) exactly the transactions with MORE than two postings and emits one
row per 2-posting transaction; transactions with fewer than two postings
instead raise an unpacking `ValueError` (see the counterexample).  On lists
whose transactions all have at least two postings the loop succeeds and the
row count equals the number of 2-posting transactions; in particular the
nine-plus-one sample list converts to a batch of exactly 9 rows. -/
theorem claim_C3 :
    (∀ (conv : String → Option String) (dc : String) (ts : List Transaction),
        (∀ t ∈ ts, 2 ≤ t.postings.length) →
        (∀ s, (conv s).isSome = true) →
        ∃ rows, processTransactions conv dc ts = .ok rows ∧
          rows.length = (ts.filter (fun t => decide (t.postings.length = 2))).length) ∧
    ((beancount2datev sampleTransactions (fun _ => some "1000") 2021 none none).map
        (fun b => b.rows.length) = .ok 9) := by
  constructor
  · intro conv dc ts
    induction ts with
    | nil => exact fun _ _ => ⟨[], rfl, rfl⟩
    | cons t ts ih =>
      intro hlen hconv
      obtain ⟨rest, hrest, hcount⟩ := ih (fun x hx => hlen x (List.mem_cons_of_mem t hx)) hconv
      have h2 : 2 ≤ t.postings.length := hlen t (List.mem_cons_self t ts)
      by_cases hgt : 2 < t.postings.length
      · have hconvt : convertTransaction conv dc t = .ok none := by
          unfold convertTransaction
          rw [if_pos hgt]
        have hne : ¬ (t.postings.length = 2) := by omega
        refine ⟨rest, ?_, ?_⟩
        · simp [processTransactions, hconvt, hrest]
        · simp [List.filter_cons, hne, hcount]
      · have heq : t.postings.length = 2 := by omega
        obtain ⟨q1, q2, hq⟩ := List.length_eq_two.mp heq
        obtain ⟨row, hrow⟩ := convertTransaction_two conv dc hq hconv
        refine ⟨row :: rest, ?_, ?_⟩
        · simp [processTransactions, hrow, hrest]
        · simp [List.filter_cons, heq, hcount]
  · rfl

/-- Witness for C3 on the concrete nine-plus-one sample list. -/
theorem claim_C3_witness :
    ∃ rows, processTransactions (fun _ => some "1000") "EUR" sampleTransactions = .ok rows ∧
      rows.length =
        (sampleTransactions.filter (fun t => decide (t.postings.length = 2))).length :=
  claim_C3.1 (fun _ => some "1000") "EUR" sampleTransactions (by decide) (fun _ => rfl)

/-! ## Claim C6: batch-to-ledger signs, currency, and output order -/

/-- Claim C6: `datev2beancount` gives the primary posting the unsigned row
amount, positive when the indicator is the debit symbol `S` and negative
otherwise; the counter posting is the exact negation; the currency is the
row's override when present and the batch header's default otherwise, for
both postings; and the returned transaction list is sorted ascending by date
even when the batch rows are not. -/
theorem claim_C6 :
    (∀ (conv : String → Option String) (flag payee hc : String) (entry : BuchungsRow)
        (k gk : String),
        conv entry.konto = some k → conv entry.gegenkonto = some gk →
        0 ≤ entry.umsatz →
        convertRow conv (some []) flag payee hc entry = .ok
          { date := entry.belegdatum, flag := flag, payee := payee,
            narration := entry.buchungstext,
            postings :=
              [⟨k, if entry.sollHaben = "S" then entry.umsatz else -entry.umsatz,
                entry.wkzUmsatz.getD hc⟩,
               ⟨gk, -(if entry.sollHaben = "S" then entry.umsatz else -entry.umsatz),
                entry.wkzUmsatz.getD hc⟩],
            meta := [] }) ∧
    (∀ (stapel : Buchungsstapel) (conv : String → Option String) (flag payee : String)
        (metadata : Option (List (String × String))) (entries : List Transaction),
        datev2beancount stapel conv flag metadata payee = .ok entries →
        entries.Sorted (fun a b => dateLe a.date b.date = true)) := by
  constructor
  · intro conv flag payee hc entry k gk hk hgk hu
    have hne : ("" : String) ≠ "-" := by decide
    cases hw : entry.wkzUmsatz <;>
      by_cases hs : entry.sollHaben = "S" <;>
        simp [convertRow, hk, hgk, hs, hw, decimalOfSigned, hne, not_lt.mpr hu]
  · intro stapel conv flag payee metadata entries h
    unfold datev2beancount at h
    cases hp : processRows conv metadata flag payee stapel.waehrungskennzeichen
        stapel.rows with
    | error e => rw [hp] at h; simp at h
    | ok l =>
      rw [hp] at h
      simp only [Except.ok.injEq] at h
      subst h
      haveI : IsTrans Transaction (fun a b => dateLe a.date b.date = true) :=
        ⟨fun _ _ _ => dateLe_trans⟩
      haveI : IsTotal Transaction (fun a b => dateLe a.date b.date = true) :=
        ⟨fun a b => dateLe_total a.date b.date⟩
      exact List.sorted_insertionSort _ l

/-- Witness for C6: a credit-indicator row with a currency override, and an
out-of-order two-row batch whose output comes back date-sorted. -/
theorem claim_C6_witness :
    convertRow (fun n => if n = "1000" then some "Assets:Bank" else some "Expenses:Food")
        (some []) "txn" ""
        "EUR"
        { umsatz := 70, sollHaben := "H", konto := "1000", gegenkonto := "4000",
          belegdatum := Date.mk 2021 2 1, buchungstext := "earlier",
          wkzUmsatz := some "USD" } = .ok
        { date := Date.mk 2021 2 1, flag := "txn", payee := "",
          narration := "earlier",
          postings :=
            [⟨"Assets:Bank",
              if ("H" : String) = "S" then (70 : ℚ) else -(70 : ℚ),
              Option.getD (some "USD") "EUR"⟩,
             ⟨"Expenses:Food",
              -(if ("H" : String) = "S" then (70 : ℚ) else -(70 : ℚ)),
              Option.getD (some "USD") "EUR"⟩],
          meta := [] } ∧
    List.Sorted (fun (a b : Transaction) => dateLe a.date b.date = true)
      [{ date := Date.mk 2021 2 1, flag := "txn", payee := "", narration := "earlier",
         postings := [⟨"Assets:Bank", -70, "USD"⟩, ⟨"Expenses:Food", 70, "USD"⟩],
         meta := [] },
       { date := Date.mk 2021 5 1, flag := "txn", payee := "", narration := "later",
         postings := [⟨"Assets:Bank", 50, "EUR"⟩, ⟨"Expenses:Food", -50, "EUR"⟩],
         meta := [] }] :=
  ⟨claim_C6.1 (fun n => if n = "1000" then some "Assets:Bank" else some "Expenses:Food")
      "txn" "" "EUR"
      { umsatz := 70, sollHaben := "H", konto := "1000", gegenkonto := "4000",
        belegdatum := Date.mk 2021 2 1, buchungstext := "earlier",
        wkzUmsatz := some "USD" }
      "Assets:Bank" "Expenses:Food" rfl rfl (by decide),
   claim_C6.2
      { berater := 1001, mandant := 1, wirtschaftsjahrBeginn := Date.mk 2021 1 1,
        sachkontennummernlaenge := 4, datumVon := Date.mk 2021 1 1,
        datumBis := Date.mk 2021 12 31, waehrungskennzeichen := "EUR",
        rows := [{ umsatz := 50, sollHaben := "S", konto := "1000", gegenkonto := "4000",
                   belegdatum := Date.mk 2021 5 1, buchungstext := "later",
                   wkzUmsatz := none },
                 { umsatz := 70, sollHaben := "H", konto := "1000", gegenkonto := "4000",
                   belegdatum := Date.mk 2021 2 1, buchungstext := "earlier",
                   wkzUmsatz := some "USD" }] }
      (fun n => if n = "1000" then some "Assets:Bank" else some "Expenses:Food")
      "txn" "" (some []) _ rfl⟩

/-! ## Claim C1: the ledger-batch-ledger round trip -/

theorem dateLe_firstOfYear {d : Date} (h : validDate d) :
    dateLe (Date.mk d.year 1 1) d = true := by
  obtain ⟨y, m, dd⟩ := d
  obtain ⟨h1, h2, h3, h4⟩ := h
  simp only [dateLe, Bool.or_eq_true, Bool.and_eq_true, decide_eq_true_eq, true_and]
  dsimp only at h1 h2 h3 h4 ⊢
  omega

theorem dateLe_lastOfYear {d : Date} (h : validDate d) :
    dateLe d (Date.mk d.year 12 31) = true := by
  obtain ⟨y, m, dd⟩ := d
  obtain ⟨h1, h2, h3, h4⟩ := h
  simp only [dateLe, Bool.or_eq_true, Bool.and_eq_true, decide_eq_true_eq, true_and]
  dsimp only at h1 h2 h3 h4 ⊢
  omega

/-- Claim C1: a 2-posting transaction with opposite equal-magnitude amounts
(and, as beancount's balance check guarantees for such a pair, one currency),
whose accounts the name-to-number map resolves and whose numbers the inverse
map resolves back, survives the ledger-to-batch-to-ledger round trip: the
resulting transaction has the same date, the same account names, and the same
(account, signed amount, currency) triples up to reordering of the two
postings. -/
theorem claim_C1 : ∀ (t : Transaction) (pa pb : Posting) (f g : String → Option String)
    (na nb : String) (md : List (String × String)) (flag payee : String),
    t.postings = [pa, pb] →
    pb.number = -pa.number → pa.number ≠ 0 → pb.currency = pa.currency →
    validDate t.date →
    f pa.account = some na → f pb.account = some nb →
    g na = some pa.account → g nb = some pb.account →
    ∃ (b : Buchungsstapel) (t2 : Transaction),
      beancount2datev [t] f t.date.year none none = .ok b ∧
      datev2beancount b g flag (some md) payee = .ok [t2] ∧
      t2.date = t.date ∧
      (t2.postings.map Posting.account).Perm (t.postings.map Posting.account) ∧
      (t2.postings.map (fun p => (p.account, p.number, p.currency))).Perm
        (t.postings.map (fun p => (p.account, p.number, p.currency))) := by
  intro t pa pb f g na nb md flag payee hpost hq hq0 hcur hval hf1 hf2 hg1 hg2
  have hin : (dateLe (Date.mk t.date.year 1 1) t.date &&
      dateLe t.date (Date.mk t.date.year 12 31)) = true := by
    rw [Bool.and_eq_true]
    exact ⟨dateLe_firstOfYear hval, dateLe_lastOfYear hval⟩
  have hsne : ("" : String) ≠ "-" := by decide
  by_cases hs : pa.number < 0
  · -- pa is negative: the loop swaps, pb becomes the debit side
    have hpbnn : ¬ (pb.number < 0) := not_lt.mpr (by rw [hq]; exact le_of_lt (neg_pos.mpr hs))
    refine ⟨{ berater := 1001, mandant := 1,
              wirtschaftsjahrBeginn := Date.mk t.date.year 1 1,
              sachkontennummernlaenge := 4, datumVon := Date.mk t.date.year 1 1,
              datumBis := Date.mk t.date.year 12 31, waehrungskennzeichen := pa.currency,
              rows := [{ umsatz := pb.number, sollHaben := "S", konto := nb,
                         gegenkonto := na, belegdatum := t.date,
                         buchungstext := t.narration.take 60, wkzUmsatz := none }] },
            { date := t.date, flag := flag, payee := payee,
              narration := t.narration.take 60,
              postings := [⟨pb.account, pb.number, pa.currency⟩,
                           ⟨pa.account, -pb.number, pa.currency⟩],
              meta := md.foldl
                (fun acc kv =>
                  match rowField { umsatz := pb.number, sollHaben := "S", konto := nb,
                                   gegenkonto := na, belegdatum := t.date,
                                   buchungstext := t.narration.take 60,
                                   wkzUmsatz := none } kv.1 with
                  | none => acc
                  | some v => dictInsert acc kv.2 v)
                [] },
            ?_, ?_, rfl, ?_, ?_⟩
    · simp [beancount2datev, checkDate, List.filter, hin, List.insertionSort,
        List.orderedInsert, firstCurrencies, hpost, mostCommon, processTransactions,
        convertTransaction, hs, hf1, hf2, hcur]
    · simp [datev2beancount, processRows, convertRow, hg1, hg2, decimalOfSigned, hsne,
        hpbnn, List.insertionSort, List.orderedInsert]
    · rw [hpost]
      exact List.Perm.swap pa.account pb.account []
    · rw [hpost]
      simp only [List.map_cons, List.map_nil, hq, hcur, neg_neg]
      exact List.Perm.swap (pa.account, pa.number, pa.currency)
        (pb.account, -pa.number, pa.currency) []
  · -- pa is non-negative: no swap, pa is the debit side
    have hpblt : pb.number < 0 := by
      rw [hq]
      rcases lt_or_gt_of_ne hq0 with h | h
      · exact absurd h hs
      · exact neg_neg_of_pos h
    refine ⟨{ berater := 1001, mandant := 1,
              wirtschaftsjahrBeginn := Date.mk t.date.year 1 1,
              sachkontennummernlaenge := 4, datumVon := Date.mk t.date.year 1 1,
              datumBis := Date.mk t.date.year 12 31, waehrungskennzeichen := pa.currency,
              rows := [{ umsatz := pa.number, sollHaben := "S", konto := na,
                         gegenkonto := nb, belegdatum := t.date,
                         buchungstext := t.narration.take 60, wkzUmsatz := none }] },
            { date := t.date, flag := flag, payee := payee,
              narration := t.narration.take 60,
              postings := [⟨pa.account, pa.number, pa.currency⟩,
                           ⟨pb.account, -pa.number, pa.currency⟩],
              meta := md.foldl
                (fun acc kv =>
                  match rowField { umsatz := pa.number, sollHaben := "S", konto := na,
                                   gegenkonto := nb, belegdatum := t.date,
                                   buchungstext := t.narration.take 60,
                                   wkzUmsatz := none } kv.1 with
                  | none => acc
                  | some v => dictInsert acc kv.2 v)
                [] },
            ?_, ?_, rfl, ?_, ?_⟩
    · simp [beancount2datev, checkDate, List.filter, hin, List.insertionSort,
        List.orderedInsert, firstCurrencies, hpost, mostCommon, processTransactions,
        convertTransaction, hs, hf1, hf2]
    · simp [datev2beancount, processRows, convertRow, hg1, hg2, decimalOfSigned, hsne,
        hs, List.insertionSort, List.orderedInsert]
    · rw [hpost]
      exact List.Perm.refl _
    · rw [hpost]
      simp only [List.map_cons, List.map_nil, hq, hcur]
      exact List.Perm.refl _

/-- Witness for C1 on the concrete lunch transaction and its account maps. -/
theorem claim_C1_witness :
    ∃ (b : Buchungsstapel) (t2 : Transaction),
      beancount2datev [roundTripTxn] nameToNumber 2021 none none = .ok b ∧
      datev2beancount b numberToName "txn" (some []) "" = .ok [t2] ∧
      t2.date = Date.mk 2021 3 5 ∧
      (t2.postings.map Posting.account).Perm (roundTripTxn.postings.map Posting.account) ∧
      (t2.postings.map (fun p => (p.account, p.number, p.currency))).Perm
        (roundTripTxn.postings.map (fun p => (p.account, p.number, p.currency))) :=
  claim_C1 roundTripTxn ⟨"Expenses:Food", -100, "EUR"⟩ ⟨"Assets:Bank", 100, "EUR"⟩
    nameToNumber numberToName "4000" "1000" [] "txn" "" rfl (by decide) (by decide) rfl
    (by decide) rfl rfl rfl rfl

/-! ## Wildcard expansion lemmas -/

theorem getD_set_self {c : List Char} {i : Nat} (h : i < c.length) (x : Char) :
    (c.set i x).getD i ' ' = x := by
  rw [List.getD_eq_getElem?_getD, List.getElem?_set]
  simp [h]

theorem getD_set_ne {c : List Char} {i j : Nat} (h : i ≠ j) (x : Char) :
    (c.set i x).getD j ' ' = c.getD j ' ' := by
  rw [List.getD_eq_getElem?_getD, List.getD_eq_getElem?_getD, List.getElem?_set]
  simp [h]

theorem digitChar_isDigit : ∀ d, d < 10 → (Char.ofNat (48 + d)).isDigit = true := by decide

theorem digitChar_inj : ∀ d, d < 10 → ∀ e, e < 10 →
    Char.ofNat (48 + d) = Char.ofNat (48 + e) → d = e := by decide

theorem listChar_ext {c1 c2 : List Char} (hl : c1.length = c2.length)
    (h : ∀ j, j < c1.length → c1.getD j ' ' = c2.getD j ' ') : c1 = c2 := by
  apply List.ext_getElem hl
  intro n h1 h2
  have hn := h n h1
  rw [List.getD_eq_getElem c1 ' ' h1, List.getD_eq_getElem c2 ' ' h2] at hn
  exact hn

theorem expandStep_ok {i : Nat} {coll : List (List Char)}
    (h : ∀ c ∈ coll, (c.getD i ' ').isDigit = true ∨ c.getD i ' ' = '*') :
    expandStep i coll = .ok (coll.flatMap (variants i)) := by
  induction coll with
  | nil => rfl
  | cons c rest ih =>
    have ihr := ih (fun x hx => h x (List.mem_cons_of_mem c hx))
    rcases h c (List.mem_cons_self c rest) with hd | hw
    · rw [List.getD_eq_getElem?_getD] at hd
      simp [expandStep, hd, ihr, variants, List.flatMap_cons]
    · have hnd : (c.getD i ' ').isDigit = false := by rw [hw]; decide
      rw [List.getD_eq_getElem?_getD] at hw hnd
      simp [expandStep, hnd, hw, ihr, variants, List.flatMap_cons]

theorem mem_variants_elim {i : Nat} {c x : List Char} (h : x ∈ variants i c) :
    ((c.getD i ' ').isDigit = true ∧ x = c) ∨
    ((c.getD i ' ').isDigit = false ∧
      ∃ d, d < 10 ∧ x = c.set i (Char.ofNat (48 + d))) := by
  unfold variants at h
  by_cases hd : (c.getD i ' ').isDigit = true
  · rw [if_pos hd] at h
    simp only [List.mem_singleton] at h
    exact Or.inl ⟨hd, h⟩
  · rw [if_neg hd] at h
    obtain ⟨d, hd10, hxe⟩ := List.mem_map.mp h
    exact Or.inr ⟨Bool.eq_false_iff.mpr hd, d, List.mem_range.mp hd10, hxe.symm⟩

theorem mem_variants_length {i : Nat} {c x : List Char} (h : x ∈ variants i c) :
    x.length = c.length := by
  rcases mem_variants_elim h with ⟨_, rfl⟩ | ⟨_, d, _, rfl⟩
  · rfl
  · exact List.length_set c i _

theorem mem_variants_ne {i : Nat} {c x : List Char} (h : x ∈ variants i c)
    (j : Nat) (hj : j ≠ i) : x.getD j ' ' = c.getD j ' ' := by
  rcases mem_variants_elim h with ⟨_, rfl⟩ | ⟨_, d, _, rfl⟩
  · rfl
  · exact getD_set_ne (Ne.symm hj) _

theorem variants_length_digit {i : Nat} {c : List Char}
    (h : (c.getD i ' ').isDigit = true) : (variants i c).length = 1 := by
  rw [List.getD_eq_getElem?_getD] at h
  simp [variants, h]

theorem variants_length_star {i : Nat} {c : List Char}
    (h : c.getD i ' ' = '*') : (variants i c).length = 10 := by
  have hnd : (c.getD i ' ').isDigit = false := by rw [h]; decide
  rw [List.getD_eq_getElem?_getD] at hnd
  simp [variants, hnd]

theorem variants_nodup {i : Nat} {c : List Char} (hilen : i < c.length) :
    (variants i c).Nodup := by
  unfold variants
  split
  · simp
  · apply List.Nodup.map_on ?_ (List.nodup_range 10)
    intro d hd e he hset
    have h1 : (c.set i (Char.ofNat (48 + d))).getD i ' ' = Char.ofNat (48 + d) :=
      getD_set_self hilen _
    have h2 : (c.set i (Char.ofNat (48 + e))).getD i ' ' = Char.ofNat (48 + e) :=
      getD_set_self hilen _
    rw [hset] at h1
    exact digitChar_inj d (List.mem_range.mp hd) e (List.mem_range.mp he)
      (by rw [← h1, h2])

theorem shape_step {a : List Char} {i : Nat} {c x : List Char}
    (halpha : (a.getD i ' ').isDigit = true ∨ a.getD i ' ' = '*')
    (hsh : Shape a i c) (hi : i < a.length) (hx : x ∈ variants i c) :
    Shape a (i + 1) x := by
  obtain ⟨hlen, hge, hlt⟩ := hsh
  have hci : c.getD i ' ' = a.getD i ' ' := hge i (le_refl i)
  have hilen : i < c.length := by rw [hlen]; exact hi
  rcases mem_variants_elim hx with ⟨hdig, rfl⟩ | ⟨hnotdig, d, hd10, rfl⟩
  · refine ⟨hlen, ?_, ?_⟩
    · intro j hj
      exact hge j (Nat.le_of_succ_le hj)
    · intro j hj
      rcases Nat.lt_succ_iff_lt_or_eq.mp hj with hj2 | hj2
      · exact hlt j hj2
      · subst hj2
        exact ⟨fun _ => hci, fun _ => hdig⟩
  · refine ⟨?_, ?_, ?_⟩
    · rw [List.length_set]; exact hlen
    · intro j hj
      have hji : i ≠ j := by omega
      rw [getD_set_ne hji]
      exact hge j (by omega)
    · intro j hj
      rcases Nat.lt_succ_iff_lt_or_eq.mp hj with hj2 | hj2
      · have hji : i ≠ j := by omega
        rw [getD_set_ne hji]
        exact hlt j hj2
      · subst hj2
        constructor
        · intro hadig
          rw [← hci] at hadig
          rw [hnotdig] at hadig
          exact absurd hadig (by decide)
        · intro _
          rw [getD_set_self hilen]
          exact digitChar_isDigit d hd10

theorem variants_disjoint {a : List Char} {i : Nat} {c1 c2 : List Char}
    (h1 : Shape a i c1) (h2 : Shape a i c2) (hne : c1 ≠ c2) :
    List.Disjoint (variants i c1) (variants i c2) := by
  intro x hx1 hx2
  apply hne
  have hlen1 := mem_variants_length hx1
  have hlen2 := mem_variants_length hx2
  apply listChar_ext (by rw [h1.1, h2.1])
  intro j hj
  by_cases hji : j = i
  · subst hji
    rw [h1.2.1 j (le_refl j), h2.2.1 j (le_refl j)]
  · rw [← mem_variants_ne hx1 j hji, ← mem_variants_ne hx2 j hji]

theorem flatMap_length_const {α β : Type} (f : α → List β) (l : List α) (k : Nat)
    (h : ∀ x ∈ l, (f x).length = k) : (l.flatMap f).length = l.length * k := by
  induction l with
  | nil => simp
  | cons x rest ih =>
    rw [List.flatMap_cons, List.length_append, h x (List.mem_cons_self x rest),
      ih (fun y hy => h y (List.mem_cons_of_mem x hy)), List.length_cons]
    ring

theorem expandLoop_invariant (a : List Char)
    (halpha : ∀ j, j < a.length → ((a.getD j ' ').isDigit = true ∨ a.getD j ' ' = '*')) :
    ∀ (k i : Nat), i + k = a.length →
    ∀ coll : List (List Char),
    (∀ c ∈ coll, Shape a i c) → coll.Nodup →
    ∃ coll2, expandLoop (List.range' i k) coll = .ok coll2 ∧
      (∀ c ∈ coll2, Shape a a.length c) ∧ coll2.Nodup ∧
      coll2.length = coll.length * 10 ^ ((a.drop i).count '*') := by
  intro k
  induction k with
  | zero =>
    intro i hik coll hsh hnd
    have hie : i = a.length := by omega
    subst hie
    refine ⟨coll, rfl, hsh, hnd, ?_⟩
    rw [List.drop_length]
    simp
  | succ k ih =>
    intro i hik coll hsh hnd
    have hi : i < a.length := by omega
    have hci : ∀ c ∈ coll, c.getD i ' ' = a.getD i ' ' :=
      fun c hc => (hsh c hc).2.1 i (le_refl i)
    have halphai := halpha i hi
    have hstep : expandStep i coll = .ok (coll.flatMap (variants i)) := by
      apply expandStep_ok
      intro c hc
      rw [hci c hc]
      exact halphai
    have hsh2 : ∀ x ∈ coll.flatMap (variants i), Shape a (i + 1) x := by
      intro x hx
      obtain ⟨c, hc, hxc⟩ := List.mem_flatMap.mp hx
      exact shape_step halphai (hsh c hc) hi hxc
    have hnd2 : (coll.flatMap (variants i)).Nodup := by
      rw [List.nodup_flatMap]
      constructor
      · intro c hc
        exact variants_nodup (by rw [(hsh c hc).1]; exact hi)
      · apply List.Pairwise.imp_of_mem ?_ hnd
        intro c1 c2 hc1 hc2 hne
        exact variants_disjoint (hsh c1 hc1) (hsh c2 hc2) hne
    have hlen2 : (coll.flatMap (variants i)).length =
        coll.length * (if a.getD i ' ' = '*' then 10 else 1) := by
      rcases halphai with hdig | hstar
      · have hns : ¬ (a.getD i ' ' = '*') := by
          intro hcontra
          rw [hcontra] at hdig
          exact absurd hdig (by decide)
        rw [if_neg hns]
        apply flatMap_length_const
        intro c hc
        exact variants_length_digit (by rw [hci c hc]; exact hdig)
      · rw [if_pos hstar]
        apply flatMap_length_const
        intro c hc
        exact variants_length_star (by rw [hci c hc]; exact hstar)
    obtain ⟨coll2, hloop, hshf, hndf, hlenf⟩ :=
      ih (i + 1) (by omega) (coll.flatMap (variants i)) hsh2 hnd2
    refine ⟨coll2, ?_, hshf, hndf, ?_⟩
    · rw [List.range'_succ]
      simp only [expandLoop]
      rw [hstep]
      exact hloop
    · rw [hlenf, hlen2]
      have hdrop : a.drop i = a.getD i ' ' :: a.drop (i + 1) := by
        rw [List.drop_eq_getElem_cons hi, List.getD_eq_getElem a ' ' hi]
      by_cases hstar : a.getD i ' ' = '*'
      · have hbeq : (a.getD i ' ' == '*') = true := by rw [hstar]; rfl
        have hcnt : List.count '*' (List.drop i a) =
            List.count '*' (List.drop (i + 1) a) + 1 := by
          rw [hdrop, List.count_cons, hbeq]
          simp
        rw [hcnt, if_pos hstar, pow_succ]
        ring
      · have hbeq : (a.getD i ' ' == '*') = false := beq_eq_false_iff_ne.mpr hstar
        have hcnt : List.count '*' (List.drop i a) =
            List.count '*' (List.drop (i + 1) a) := by
          rw [hdrop, List.count_cons, hbeq]
          simp
        rw [hcnt, if_neg hstar]
        ring

theorem expand_asterisk_wildcard_spec (a : List Char)
    (halpha : ∀ c ∈ a, c.isDigit = true ∨ c = '*') :
    ∃ l, expand_asterisk_wildcard a = .ok l ∧
      l.length = 10 ^ (a.count '*') ∧ l.Nodup ∧
      ∀ s ∈ l, s.length = a.length ∧
        ∀ j, j < a.length →
          ((a.getD j ' ').isDigit = true → s.getD j ' ' = a.getD j ' ') ∧
          (a.getD j ' ' = '*' → (s.getD j ' ').isDigit = true) := by
  have halpha2 : ∀ j, j < a.length →
      ((a.getD j ' ').isDigit = true ∨ a.getD j ' ' = '*') := by
    intro j hj
    rw [List.getD_eq_getElem a ' ' hj]
    exact halpha a[j] (List.getElem_mem hj)
  have hstart : ∀ c ∈ [a], Shape a 0 c := by
    intro c hc
    rw [List.mem_singleton] at hc
    subst hc
    exact ⟨rfl, fun j _ => rfl, fun j hj => absurd hj (Nat.not_lt_zero j)⟩
  obtain ⟨l, hloop, hsh, hnd, hlen⟩ :=
    expandLoop_invariant a halpha2 a.length 0 (by omega) [a] hstart
      (List.nodup_singleton a)
  refine ⟨l, ?_, ?_, hnd, ?_⟩
  · unfold expand_asterisk_wildcard
    rw [List.range_eq_range']
    exact hloop
  · rw [hlen]
    simp
  · intro s hs
    obtain ⟨hslen, _, hltc⟩ := hsh s hs
    exact ⟨hslen, fun j hj => hltc j hj⟩

/-! ## Claim C2: wildcard expansion -/

/-- Claim C2: for every pattern over digits and the asterisk with `w`
wildcards, `expand_asterisk_wildcard` returns exactly `10 ^ w` distinct
strings of the pattern's length, each agreeing with the pattern at digit
positions and holding a digit at wildcard positions; in particular `"52*"`
expands to exactly 10 distinct 3-character numeric strings differing only in
the wildcard position, and `load_account_dictionary` maps them all to the
same account name. -/
theorem claim_C2 :
    (∀ a : List Char, (∀ c ∈ a, c.isDigit = true ∨ c = '*') →
      ∃ l, expand_asterisk_wildcard a = .ok l ∧
        l.length = 10 ^ (a.count '*') ∧ l.Nodup ∧
        ∀ s ∈ l, s.length = a.length ∧
          ∀ j, j < a.length →
            ((a.getD j ' ').isDigit = true → s.getD j ' ' = a.getD j ' ') ∧
            (a.getD j ' ' = '*' → (s.getD j ' ').isDigit = true)) ∧
    (∃ l52, expand_asterisk_wildcard ['5', '2', '*'] = .ok l52 ∧
      l52.length = 10 ∧ l52.Nodup ∧
      (∀ s ∈ l52, s.length = 3 ∧ s.getD 0 ' ' = '5' ∧ s.getD 1 ' ' = '2' ∧
        (s.getD 2 ' ').isDigit = true) ∧
      ∃ d1 d2,
        load_account_dictionary [(['5', '2', '*'], "Expenses:Food")] true none =
          .ok (d1, d2) ∧
        ∀ s ∈ l52, d1.get s = some "Expenses:Food") := by
  constructor
  · exact expand_asterisk_wildcard_spec
  · refine ⟨[['5', '2', '0'], ['5', '2', '1'], ['5', '2', '2'], ['5', '2', '3'],
      ['5', '2', '4'], ['5', '2', '5'], ['5', '2', '6'], ['5', '2', '7'],
      ['5', '2', '8'], ['5', '2', '9']], rfl, rfl, by decide, by decide, _, _, rfl,
      by decide⟩

/-- Witness for C2 on the pattern `"1*2*"` with two wildcards. -/
theorem claim_C2_witness :
    ∃ l, expand_asterisk_wildcard ['1', '*', '2', '*'] = .ok l ∧
      l.length = 10 ^ ((['1', '*', '2', '*'] : List Char).count '*') ∧ l.Nodup ∧
      ∀ s ∈ l, s.length = (['1', '*', '2', '*'] : List Char).length ∧
        ∀ j, j < (['1', '*', '2', '*'] : List Char).length →
          (((['1', '*', '2', '*'] : List Char).getD j ' ').isDigit = true →
            s.getD j ' ' = (['1', '*', '2', '*'] : List Char).getD j ' ') ∧
          ((['1', '*', '2', '*'] : List Char).getD j ' ' = '*' →
            (s.getD j ' ').isDigit = true) :=
  claim_C2.1 ['1', '*', '2', '*'] (by decide)
